import Mathlib

/-!
Shallow embedding of the core of `Trade_Raven.py` (a Sleeper fantasy-league
trade-announcement bot) and verification of the frozen claims about it.

Python dicts are modelled as association lists with unique keys (first match
wins, mirroring dict lookup); numeric player values (`float` from the CSV) are
modelled as rationals; wall-clock timestamps are modelled as integer seconds.
Console printing is irrelevant to every claim and is dropped, except for the
diagnostic output of `find_similar_names_in_db`, which is surfaced as an
explicit diagnostics component so that its non-interference can be stated.
-/

namespace TradeRaven

/- Batteries marks the `Rat` field operations `@[irreducible]`; restore the
default reducibility inside this file so that concrete runs of the embedded
program can be evaluated by `decide`. -/
attribute [local semireducible] Rat.mul Rat.inv Rat.add Rat.sub

/-- Python `dict[k]` / `dict.get(k)` on an association list: first binding of
the key wins (keys are unique in a dict, so this is exact). -/
def dictLookup {α β : Type} [DecidableEq α] (k : α) : List (α × β) → Option β
  | [] => none
  | (k', v) :: rest => if k' = k then some v else dictLookup k rest

/-- `manual_ktc_overrides` (source lines 42-49): static alias table consulted
before any matching. -/
def manual_ktc_overrides : List (String × String) :=
  [("Ken Walker", "Kenneth Walker III"),
   ("DJ Moore", "D.J. Moore"),
   ("CMC", "Christian McCaffrey"),
   ("JJ", "Justin Jefferson"),
   ("Bijan", "Bijan Robinson"),
   ("Tyreek", "Tyreek Hill")]

/-! ### difflib embedding

`get_ktc_value` calls `difflib.get_close_matches(name, keys, n=1, cutoff=0.5)`.
`get_close_matches` keeps the possibilities whose `SequenceMatcher.ratio()`
against the word is at least the cutoff (its two quick ratios are upper bounds
of `ratio`, so the chained test is equivalent to `ratio >= cutoff`) and returns
the largest `(score, possibility)` pairs.  All strings involved are far shorter
than 200 characters, so difflib's autojunk heuristic marks no junk and
`find_longest_match` has its documented junk-free semantics: the longest
matching block, earliest in `a`, then earliest in `b`. -/

/-- `a[i:i+k] == b[j:j+k]` as a Bool (callers guarantee the bounds). -/
def agrees (a b : List Char) (i j k : Nat) : Bool :=
  (List.range k).all fun t => a[i+t]? == b[j+t]?

/-- Candidate triple `p = (i, j, k)` is strictly better than `q`: longer block,
or same length and earlier in `a`, or same start in `a` and earlier in `b`. -/
def betterBlock (p q : Nat × Nat × Nat) : Bool :=
  q.2.2 < p.2.2 ∨ (p.2.2 = q.2.2 ∧ (p.1 < q.1 ∨ (p.1 = q.1 ∧ p.2.1 < q.2.1)))

/-- `SequenceMatcher.find_longest_match` restricted to `a[alo:ahi]`,
`b[blo:bhi]` with no junk: the `(i, j, k)` with `a[i:i+k] == b[j:j+k]`
maximising `k`, then minimising `i`, then `j`; `(alo, blo, 0)` if no
non-empty block matches. -/
def find_longest_match (a b : List Char) (alo ahi blo bhi : Nat) :
    Nat × Nat × Nat :=
  let cands := (List.range' alo (ahi - alo)).flatMap fun i =>
    (List.range' blo (bhi - blo)).flatMap fun j =>
      (List.range' 1 (min (ahi - i) (bhi - j))).filterMap fun k =>
        if agrees a b i j k then some (i, j, k) else none
  cands.foldl (fun best c => if betterBlock c best then c else best)
    (alo, blo, 0)

/-- Total size of the matching blocks of `SequenceMatcher.get_matching_blocks`
on the region `a[alo:ahi]` × `b[blo:bhi]`: recursively split around the longest
match (`if k:` in CPython).  Structural recursion on a fuel argument so the
kernel can evaluate it; each recursive call strictly decreases
`(ahi - alo) + (bhi - blo)` (the found block is in range and non-empty), so
with the fuel `totalMatched` supplies the `fuel = 0` branch is unreachable. -/
def totalMatchedAux (a b : List Char) :
    Nat → Nat → Nat → Nat → Nat → Nat
  | 0, _, _, _, _ => 0
  | fuel + 1, alo, ahi, blo, bhi =>
    let best := find_longest_match a b alo ahi blo bhi
    if 0 < best.2.2 then
      totalMatchedAux a b fuel alo best.1 blo best.2.1 + best.2.2 +
        totalMatchedAux a b fuel (best.1 + best.2.2) ahi
          (best.2.1 + best.2.2) bhi
    else 0

/-- `SequenceMatcher.get_matching_blocks` total match size on the whole
strings; `ahi + bhi + 1` strictly exceeds the decreasing measure, so the fuel
never runs out. -/
def totalMatched (a b : List Char) (alo ahi blo bhi : Nat) : Nat :=
  totalMatchedAux a b (ahi + bhi + 1) alo ahi blo bhi

/-- `SequenceMatcher(a=a, b=b).ratio()`: `2*M/T` where `M` is the total matched
size and `T` the combined length (`1.0` when both strings are empty, as in
CPython's `_calculate_ratio`). -/
def ratioQ (a b : String) : ℚ :=
  let la := a.data.length
  let lb := b.data.length
  if la + lb = 0 then 1
  else 2 * (totalMatched a.data b.data 0 la 0 lb : ℚ) / ((la : ℚ) + (lb : ℚ))

/-- `difflib.get_close_matches(word, possibilities, n=1, cutoff)`: keep the
possibilities whose ratio against `word` reaches the cutoff, return the best
one (`heapq.nlargest` on `(score, string)` pairs, so ties on the score go to
the lexicographically larger string). -/
def closeScored (word : String) (possibilities : List String) (cutoff : ℚ) :
    List (ℚ × String) :=
  possibilities.filterMap fun x =>
    if cutoff ≤ ratioQ x word then some (ratioQ x word, x) else none

def get_close_matches (word : String) (possibilities : List String)
    (cutoff : ℚ) : Option String :=
  match closeScored word possibilities cutoff with
  | [] => none
  | c :: cs =>
    some (cs.foldl
      (fun best p =>
        if best.1 < p.1 ∨ (best.1 = p.1 ∧ best.2 < p.2) then p else best)
      c).2

/-! ### Name resolution (`get_ktc_value`, source lines 155-177) -/

/-- Is `p` a contiguous prefix of `l`? -/
def prefixEq : List Char → List Char → Bool
  | [], _ => true
  | _ :: _, [] => false
  | c :: cs, d :: ds => c == d && prefixEq cs ds

/-- Is `p` a contiguous infix of `l`? -/
def infixIn (p : List Char) : List Char → Bool
  | [] => prefixEq p []
  | c :: rest => prefixEq p (c :: rest) || infixIn p rest

/-- `find_similar_names_in_db` (source lines 105-113): the names the SQL query
`player_name LIKE '%query%'` prints.  SQLite `LIKE` is ASCII-case-insensitive,
hence the lowering; the result is diagnostic output only.  `db` is the
ValueStore (`players` table) contents. -/
def find_similar_names_in_db (query : String) (db : List (String × ℚ)) :
    List String :=
  (db.map Prod.fst).filter fun name =>
    infixIn query.toLower.data name.toLower.data

/-- The mutable state `get_ktc_value` can see: the in-memory `ktc_values`
table and the SQLite ValueStore consulted by `find_similar_names_in_db`. -/
structure ResolverState where
  ktc_values : List (String × ℚ)
  db : List (String × ℚ)
deriving DecidableEq

/-- Python `ktc_values[best]`: `best` is always a key when this is reached
(`get_close_matches` only returns members of the key list), so the `0`
default is dead code. -/
def dictGet (tbl : List (String × ℚ)) (k : String) : ℚ :=
  (dictLookup k tbl).getD 0

/-- Python `player_name.strip()`: drop leading and trailing whitespace
(the names involved are ASCII, where Python's and Lean's whitespace
predicates agree). -/
def pyStrip (s : String) : String :=
  ⟨((s.data.dropWhile Char.isWhitespace).reverse.dropWhile
      Char.isWhitespace).reverse⟩

/-- Steps 3-5 of `get_ktc_value` on the already stripped-and-substituted
`name_input`: exact match against `ktc_values`, fuzzy match with
`get_close_matches(..., n=1, cutoff=0.5)`, else `(0, None)` after the
diagnostic `find_similar_names_in_db` call.  The middle component of the
result is the diagnostic listing that call prints; the final component is the
state, which is only read. -/
def resolveFrom (name_input : String) (s : ResolverState) :
    ((ℚ × Option String) × List String) × ResolverState :=
  match dictLookup name_input s.ktc_values with
  | some v => (((v, some name_input), []), s)
  | none =>
    match get_close_matches name_input (s.ktc_values.map Prod.fst) (1/2) with
    | some best => (((dictGet s.ktc_values best, some best), []), s)
    | none => (((0, none), find_similar_names_in_db name_input s.db), s)

/-- `get_ktc_value(player_name, return_best_match=True)` (source lines
155-177): strip, substitute the manual override if the stripped name has one,
then resolve against the table. -/
def get_ktc_value (player_name : String) (s : ResolverState) :
    ((ℚ × Option String) × List String) × ResolverState :=
  let stripped := pyStrip player_name
  resolveFrom ((dictLookup stripped manual_ktc_overrides).getD stripped) s

/-- `get_ktc_value(player_name)` with `return_best_match=False`: just the
numeric value (used by the trade loop when summing a side). -/
def get_ktc_value_v (player_name : String) (tbl : List (String × ℚ)) : ℚ :=
  (get_ktc_value player_name ⟨tbl, []⟩).1.1.1

/-! ### Value ingestion (`fetch_dp_values` / `update_ktc`, source lines
132-153) and the `ktc_source_used` label (lines 39 and 481-483) -/

/-- Outcome of `fetch_dp_values()`: either the parsed `(player, value_1qb)`
rows, or an exception (network error, `raise_for_status`, CSV/float parse
failure — all raised before any shared state is touched). -/
inductive FetchOutcome
  | rows (dp : List (String × ℚ))
  | fetchFailure
deriving DecidableEq

/-- Bot state touched by `update_ktc`: the in-memory `ktc_values` table, the
module-level `ktc_source_used` label, and the SQLite ValueStore contents. -/
structure IngestState where
  ktc_values : List (String × ℚ)
  ktc_source_used : String
  db : List (String × ℚ)
deriving DecidableEq

/-- The module state at import time (source lines 37-39): empty table, label
`"unknown"`; `db` is whatever the SQLite file already holds. -/
def initialIngestState (db : List (String × ℚ)) : IngestState :=
  ⟨[], "unknown", db⟩

/-- One `INSERT ... ON CONFLICT(player_name) DO UPDATE` (source lines 73-79):
overwrite the value if the key exists, else append a fresh record. -/
def upsertRecord (db : List (String × ℚ)) (name : String) (v : ℚ) :
    List (String × ℚ) :=
  if db.any (fun p => p.1 = name) then
    db.map fun p => if p.1 = name then (p.1, v) else p
  else db ++ [(name, v)]

/-- `save_ktc_to_db` (source lines 68-82): upsert every `(name, value)` pair
of the dict, in iteration order. -/
def save_ktc_to_db (rows db : List (String × ℚ)) : List (String × ℚ) :=
  rows.foldl (fun d p => upsertRecord d p.1 p.2) db

/-- `update_ktc` (source lines 141-153).  On a fetch/parse exception the
`except` block only prints; on an empty dict (`if dp:` falsy) only a message
is printed.  Only a non-empty parse replaces `ktc_values`
(`clear()` + `update(dp)`) and writes through to the DB.  The assignment
`ktc_source_used = "DynastyProcess CSV"` inside the function body creates a
*function-local* binding (there is no `global ktc_source_used` declaration in
the source), so the module-level label is never modified. -/
def update_ktc (fetch : FetchOutcome) (s : IngestState) : IngestState :=
  match fetch with
  | FetchOutcome.fetchFailure => s
  | FetchOutcome.rows dp =>
    if dp.isEmpty then s
    else { ktc_values := dp,
           ktc_source_used := s.ktc_source_used,
           db := save_ktc_to_db dp s.db }

/-- The `!ktcsource` command (source lines 481-483) reports the module-level
`ktc_source_used` label. -/
def ktcsource (s : IngestState) : String := s.ktc_source_used

/-! ### Week derivation (`update_bot_week`, source lines 242-249, and
`forceweek`, lines 255-260).  Timestamps are integer seconds; `timedelta.days`
is floor division of the elapsed seconds by 86400, which on the non-negative
branch taken here is `Nat` division of `(now - start).toNat`. -/

/-- One firing of the `update_bot_week` task: if `today >= WEEK_2_START_DATE`,
set the week to `2 + days_passed // 7`; otherwise leave `current_bot_week`
as it is. -/
def update_bot_week (week2start now current_bot_week : ℤ) : ℤ :=
  if week2start ≤ now then
    2 + (((now - week2start).toNat / 86400) / 7 : ℕ)
  else current_bot_week

/-- The `!forceweek` command (source lines 255-260): overwrite
`current_bot_week` with the given value. -/
def forceweek (week : ℤ) (_current_bot_week : ℤ) : ℤ := week

/-! ### Trade poll cycle (`fetch_and_announce_trades`, source lines 266-345) -/

/-- Fairness verdict (source lines 323-329): within 200 the trade is fair,
otherwise the team with the larger summed value wins by `|diff|`. -/
inductive Verdict
  | fair
  | wins (team : String) (amount : ℚ)
deriving DecidableEq

/-- `diff = v0 - v1`; `abs(diff) < 200` is fair, else `team0 if diff > 0 else
team1` wins by `abs(diff)`. -/
def verdictOf (team0 team1 : String) (v0 v1 : ℚ) : Verdict :=
  let diff := v0 - v1
  if |diff| < 200 then Verdict.fair
  else Verdict.wins (if 0 < diff then team0 else team1) |diff|

/-- The `adds` field of a transaction: either a proper JSON object
(`player_id -> roster_id`, in key order) or some non-dict value, on which
`adds.items()` raises and the exception escapes the poll loop. -/
inductive AddsField
  | dict (entries : List (String × Nat))
  | malformed
deriving DecidableEq

/-- One transaction of the Sleeper feed, with the fields the loop reads. -/
structure Txn where
  transaction_id : String
  ttype : String
  status : String
  adds : AddsField
  roster_ids : List Nat
deriving DecidableEq

/-- `reverse.setdefault(rid, []).append(pid)` over `adds.items()`: bucket the
player ids by receiving roster id, keeping insertion order. -/
def buildReverse (entries : List (String × Nat)) : List (Nat × List String) :=
  entries.foldl
    (fun acc e =>
      if acc.any (fun p => p.1 = e.2) then
        acc.map fun p => if p.1 = e.2 then (p.1, p.2 ++ [e.1]) else p
      else acc ++ [(e.2, [e.1])])
    []

/-- The emitted announcement for one trade (the Discord embed's content). -/
structure TradeEvent where
  transaction_id : String
  team0 : String
  team1 : String
  t0_names : List String
  t1_names : List String
  v0 : ℚ
  v1 : ℚ
  verdict : Verdict
deriving DecidableEq

/-- Read-only inputs of one poll cycle: the player directory, the roster-id
to team-name map, the value table, whether `bot.get_channel` finds the
channel, and whether the send/react block for a given transaction id
succeeds. -/
structure CycleCtx where
  name_map : List (String × String)
  user_map : List (Nat × String)
  tbl : List (String × ℚ)
  channelOk : Bool
  sendOk : String → Bool

/-- How the `for txn in transactions` loop ended: normally, by the
`if channel is None: return`, or by an uncaught exception (malformed `adds`)
propagating out of `fetch_and_announce_trades`. -/
inductive CycleStop
  | finished
  | channelMissing
  | exn
deriving DecidableEq

/-- Result of one poll cycle: the announcements sent, the `known_trade_ids`
set afterwards, and how the loop ended. -/
structure CycleResult where
  events : List TradeEvent
  known : List String
  stop : CycleStop
deriving DecidableEq

/-- The `for txn in transactions` loop of `fetch_and_announce_trades`
(source lines 281-345), threading `known_trade_ids` and the sent
announcements.  Skips (non-trade/incomplete, already-known, fewer than two
roster ids) use `continue`; a malformed `adds` raises out of the loop; a
missing channel returns from the whole function; a failed send is caught and
the transaction id is *not* recorded, so only a successful send adds to
`known_trade_ids`. -/
def runCycleAux (ctx : CycleCtx) :
    List Txn → List String → List TradeEvent → CycleResult
  | [], known, events => ⟨events, known, CycleStop.finished⟩
  | txn :: rest, known, events =>
    if txn.ttype ≠ "trade" ∨ txn.status ≠ "complete" then
      runCycleAux ctx rest known events
    else if txn.transaction_id ∈ known then
      runCycleAux ctx rest known events
    else
      match txn.adds with
      | AddsField.malformed => ⟨events, known, CycleStop.exn⟩
      | AddsField.dict entries =>
        match txn.roster_ids.take 2 with
        | r0 :: r1 :: _ =>
          let reverse := buildReverse entries
          let t0_ids := (dictLookup r0 reverse).getD []
          let t1_ids := (dictLookup r1 reverse).getD []
          let t0_names := t0_ids.map fun pid =>
            (dictLookup pid ctx.name_map).getD pid
          let t1_names := t1_ids.map fun pid =>
            (dictLookup pid ctx.name_map).getD pid
          let v0 := (t0_names.map fun n => get_ktc_value_v n ctx.tbl).sum
          let v1 := (t1_names.map fun n => get_ktc_value_v n ctx.tbl).sum
          let team0 := (dictLookup r0 ctx.user_map).getD
            ("Team " ++ toString r0)
          let team1 := (dictLookup r1 ctx.user_map).getD
            ("Team " ++ toString r1)
          if ctx.channelOk then
            if ctx.sendOk txn.transaction_id then
              runCycleAux ctx rest (known ++ [txn.transaction_id])
                (events ++ [⟨txn.transaction_id, team0, team1, t0_names,
                  t1_names, v0, v1, verdictOf team0 team1 v0 v1⟩])
            else runCycleAux ctx rest known events
          else ⟨events, known, CycleStop.channelMissing⟩
        | _ => runCycleAux ctx rest known events

/-- One full poll cycle starting from the current `known_trade_ids`. -/
def runCycle (ctx : CycleCtx) (txns : List Txn) (known : List String) :
    CycleResult :=
  runCycleAux ctx txns known []

/-! ## Claims about the week clock -/

/-- C5: with the week-2 threshold `T`, recomputation strictly before `T`
leaves the default week 1 in place; at `T` it yields week 2; at `T` plus
8 days it yields week 3; and for any `now ≥ T` it yields
`2 + (days elapsed since T) / 7` with both divisions flooring. -/
theorem claim_C5 (T now w : ℤ) :
    (now < T → update_bot_week T now 1 = 1) ∧
    update_bot_week T T w = 2 ∧
    update_bot_week T (T + 8 * 86400) w = 3 ∧
    (T ≤ now → update_bot_week T now w =
      2 + (((now - T).toNat / 86400) / 7 : ℕ)) := by
  refine ⟨fun h => ?_, ?_, ?_, fun h => ?_⟩
  · rw [update_bot_week, if_neg (not_le.2 h)]
  · rw [update_bot_week, if_pos le_rfl]
    norm_num
  · rw [update_bot_week, if_pos (by linarith)]
    have h8 : T + 8 * 86400 - T = (691200 : ℤ) := by ring
    rw [h8]
    norm_num
  · rw [update_bot_week, if_pos h]

/-- Witness for C5 at `T = 0`: one second before the threshold the week is
still 1, at the threshold it is 2, eight days later it is 3. -/
theorem claim_C5_witness :
    update_bot_week 0 (-1) 1 = 1 ∧ update_bot_week 0 0 7 = 2 ∧
      update_bot_week 0 (8 * 86400) 7 = 3 :=
  ⟨(claim_C5 0 (-1) 7).1 (by norm_num), (claim_C5 0 0 7).2.1,
    (claim_C5 0 (8 * 86400) 7).2.2.1⟩

/-- C8 as stated is false: a manual override recomputed while the clock is
still before the week-2 threshold is *not* replaced — with threshold `0`,
override `5` and recomputation at time `-1`, the week stays 5 instead of
reverting to the derived default 1. -/
theorem claim_C8_counterexample :
    update_bot_week 0 (-1) 5 = 5 ∧ (5 : ℤ) ≠ 1 := by
  constructor
  · rw [update_bot_week, if_neg (by norm_num)]
  · norm_num

/-- C8 amended: once the recomputation time has reached the week-2 threshold,
the recomputed week is independent of whatever the override set (the override
does not persist); at a recomputation time still before the threshold the
override value survives untouched. -/
theorem claim_C8 (T now w w' : ℤ) :
    (T ≤ now → update_bot_week T now w = update_bot_week T now w') ∧
    (now < T → update_bot_week T now w = w) := by
  constructor
  · intro h
    rw [update_bot_week, if_pos h, update_bot_week, if_pos h]
  · intro h
    rw [update_bot_week, if_neg (not_le.2 h)]

/-- Witness for C8: at `T = 0`, `now = 3`, overrides 5 and 9 produce the same
recomputed week, and at `now = -1` the override 5 survives. -/
theorem claim_C8_witness :
    update_bot_week 0 3 5 = update_bot_week 0 3 9 ∧
      update_bot_week 0 (-1) 5 = 5 :=
  ⟨(claim_C8 0 3 5 9).1 (by norm_num), (claim_C8 0 (-1) 5 9).2 (by norm_num)⟩

/-! ## Claim about the fairness verdict -/

/-- C6: with `diff = v0 - v1`, a gap below 200 is judged fair; otherwise the
team with the larger summed value wins by exactly `|diff|`. -/
theorem claim_C6 (team0 team1 : String) (v0 v1 : ℚ) :
    (|v0 - v1| < 200 → verdictOf team0 team1 v0 v1 = Verdict.fair) ∧
    (200 ≤ |v0 - v1| →
      verdictOf team0 team1 v0 v1 =
        Verdict.wins (if v1 < v0 then team0 else team1) |v0 - v1|) := by
  constructor
  · intro h
    rw [verdictOf, if_pos h]
  · intro h
    rw [verdictOf, if_neg (not_lt.2 h)]
    by_cases hlt : v1 < v0
    · rw [if_pos hlt, if_pos (sub_pos.2 hlt)]
    · rw [if_neg hlt, if_neg (by simpa using hlt)]

/-- Witness for C6, the two examples from the claim: 1000 vs 850 is fair,
1000 vs 700 is won by side A by 300. -/
theorem claim_C6_witness :
    verdictOf "A" "B" 1000 850 = Verdict.fair ∧
      verdictOf "A" "B" 1000 700 = Verdict.wins "A" 300 := by
  constructor
  · exact (claim_C6 "A" "B" 1000 850).1 (by norm_num)
  · have h := (claim_C6 "A" "B" 1000 700).2 (by norm_num)
    norm_num at h
    exact h

/-! ## Claims about value ingestion -/

/-- C2: a failed fetch/parse or an empty parse result leaves the whole state
(in-memory table, source label, ValueStore) exactly as it was, and no
exception escapes (`update_ktc` is total); only a non-empty parse replaces
the in-memory table with the parsed rows, writing them through to the DB. -/
theorem claim_C2 (s : IngestState) :
    update_ktc FetchOutcome.fetchFailure s = s ∧
    update_ktc (FetchOutcome.rows []) s = s ∧
    ∀ rows, rows ≠ [] →
      (update_ktc (FetchOutcome.rows rows) s).ktc_values = rows ∧
      (update_ktc (FetchOutcome.rows rows) s).db =
        save_ktc_to_db rows s.db := by
  refine ⟨rfl, rfl, fun rows h => ?_⟩
  have hne : rows.isEmpty = false := by
    cases rows with
    | nil => exact absurd rfl h
    | cons a l => rfl
  rw [update_ktc, if_neg (by simp [hne])]
  exact ⟨rfl, rfl⟩

/-- Witness for C2: a failed fetch leaves a concrete state untouched, and a
one-row parse replaces the table with that row. -/
theorem claim_C2_witness :
    update_ktc FetchOutcome.fetchFailure ⟨[("b", 2)], "unknown", []⟩ =
      ⟨[("b", 2)], "unknown", []⟩ ∧
    (update_ktc (FetchOutcome.rows [("a", 1)])
        ⟨[("b", 2)], "unknown", []⟩).ktc_values = [("a", 1)] :=
  ⟨(claim_C2 ⟨[("b", 2)], "unknown", []⟩).1,
    ((claim_C2 ⟨[("b", 2)], "unknown", []⟩).2.2 [("a", 1)] (by decide)).1⟩

/-- C10: `update_ktc` never changes the module-level `ktc_source_used` label
(the assignment in its body is function-local), so after any refresh from the
initial state the `!ktcsource` command still reports `"unknown"`. -/
theorem claim_C10 (fetch : FetchOutcome) (s : IngestState) :
    (update_ktc fetch s).ktc_source_used = s.ktc_source_used ∧
    ∀ db, ktcsource (update_ktc fetch (initialIngestState db)) = "unknown" := by
  have key : ∀ (f : FetchOutcome) (t : IngestState),
      (update_ktc f t).ktc_source_used = t.ktc_source_used := by
    intro f t
    cases f with
    | fetchFailure => rfl
    | rows dp =>
      rw [update_ktc]
      split <;> rfl
  exact ⟨key fetch s, fun db => key fetch (initialIngestState db)⟩

/-! ## Claims about name resolution -/

/-- `resolveFrom` returns its state unchanged: the resolver only reads. -/
lemma resolveFrom_reads_only (ni : String) (s : ResolverState) :
    (resolveFrom ni s).2 = s := by
  unfold resolveFrom
  split
  · rfl
  · split <;> rfl

/-- The `(value, canonical)` part of the resolution does not depend on the
ValueStore contents consulted by the diagnostic lookup. -/
lemma resolveFrom_db_irrelevant (ni : String) (tbl db db' : List (String × ℚ)) :
    (resolveFrom ni ⟨tbl, db⟩).1.1 = (resolveFrom ni ⟨tbl, db'⟩).1.1 := by
  unfold resolveFrom
  cases hex : dictLookup ni tbl with
  | some v => simp [hex]
  | none =>
    cases hcl : get_close_matches ni (tbl.map Prod.fst) (1/2) with
    | some best => simp [hex, hcl]
    | none => simp [hex, hcl]

/-- On a full miss (no exact key, no fuzzy candidate) the resolution is
`(0, none)` and the diagnostic DB lookup is performed. -/
lemma resolveFrom_miss (ni : String) (s : ResolverState)
    (h1 : dictLookup ni s.ktc_values = none)
    (h2 : get_close_matches ni (s.ktc_values.map Prod.fst) (1/2) = none) :
    (resolveFrom ni s).1 = ((0, none), find_similar_names_in_db ni s.db) := by
  unfold resolveFrom
  rw [h1, h2]

/-- C3 as stated is false: `resolve("CMC")` does substitute the override
before any matching, but when "Christian McCaffrey" is not a key of the value
table the canonical name returned is *not* "Christian McCaffrey" — with the
table `{"CMC": 100}` (so the literal key "CMC" does exist) the result is
`(0, none)`. -/
theorem claim_C3_counterexample :
    (get_ktc_value "CMC" ⟨[("CMC", 100)], []⟩).1.1 = (0, none) ∧
    (get_ktc_value "CMC" ⟨[("CMC", 100)], []⟩).1.1.2 ≠
      some "Christian McCaffrey" := by
  constructor <;> decide

/-- C3 amended: for every key of the manual override table, `get_ktc_value`
substitutes the mapped canonical form before any exact or fuzzy table
matching (the raw input never reaches the table); consequently, whenever
"Christian McCaffrey" is a key of the value table, `resolve("CMC")` returns
its value with canonical name "Christian McCaffrey" — regardless of whether
the literal key "CMC" is also in the table. -/
theorem claim_C3 (k c : String) (s : ResolverState) (v : ℚ)
    (hmem : (k, c) ∈ manual_ktc_overrides) :
    get_ktc_value k s = resolveFrom c s ∧
    (dictLookup "Christian McCaffrey" s.ktc_values = some v →
      get_ktc_value "CMC" s = (((v, some "Christian McCaffrey"), []), s)) := by
  constructor
  · fin_cases hmem <;> rfl
  · intro hlook
    have h1 : get_ktc_value "CMC" s = resolveFrom "Christian McCaffrey" s := rfl
    rw [h1]
    unfold resolveFrom
    rw [hlook]

/-- Witness for C3: with "Christian McCaffrey" in the table at value 9999
(and no key "CMC"), `resolve("CMC")` returns `(9999, "Christian McCaffrey")`
and leaves the state unchanged. -/
theorem claim_C3_witness :
    get_ktc_value "CMC" ⟨[("Christian McCaffrey", 9999)], []⟩ =
      (((9999, some "Christian McCaffrey"), []),
        ⟨[("Christian McCaffrey", 9999)], []⟩) :=
  (claim_C3 "CMC" "Christian McCaffrey" ⟨[("Christian McCaffrey", 9999)], []⟩
    9999 (by decide)).2 (by decide)

/-- C9: with a fixed value table, `get_ktc_value` mutates nothing (the state
comes back exactly as it went in), its `(value, canonical)` result is
independent of the ValueStore contents consulted by the diagnostic
`find_similar_names_in_db` call on a full miss, and on a full miss the result
is `(0, none)` whatever the ValueStore holds.  Determinism is immediate: the
embedding is a function of the input name and the table alone. -/
theorem claim_C9 (n : String) (tbl db db' : List (String × ℚ)) :
    (get_ktc_value n ⟨tbl, db⟩).2 = ⟨tbl, db⟩ ∧
    (get_ktc_value n ⟨tbl, db⟩).1.1 = (get_ktc_value n ⟨tbl, db'⟩).1.1 ∧
    (dictLookup ((dictLookup (pyStrip n) manual_ktc_overrides).getD
        (pyStrip n)) tbl = none →
      get_close_matches ((dictLookup (pyStrip n) manual_ktc_overrides).getD
        (pyStrip n)) (tbl.map Prod.fst) (1/2) = none →
      (get_ktc_value n ⟨tbl, db⟩).1.1 = (0, none)) := by
  have hg : ∀ t : ResolverState, get_ktc_value n t =
      resolveFrom ((dictLookup (pyStrip n) manual_ktc_overrides).getD
        (pyStrip n)) t := fun t => rfl
  refine ⟨?_, ?_, fun h1 h2 => ?_⟩
  · rw [hg]
    exact resolveFrom_reads_only _ _
  · rw [hg, hg]
    exact resolveFrom_db_irrelevant _ tbl db db'
  · rw [hg]
    exact congrArg Prod.fst (resolveFrom_miss _ ⟨tbl, db⟩ h1 h2)

/-- Witness for C9: the name "zz" misses an empty table entirely; the result
is `(0, none)` and the state (with a non-trivial ValueStore) is preserved. -/
theorem claim_C9_witness :
    (get_ktc_value "zz" ⟨[], [("a", 1)]⟩).2 = ⟨[], [("a", 1)]⟩ ∧
    (get_ktc_value "zz" ⟨[], [("a", 1)]⟩).1.1 = (0, none) :=
  ⟨(claim_C9 "zz" [] [("a", 1)] []).1,
    (claim_C9 "zz" [] [("a", 1)] []).2.2 (by decide) (by decide)⟩

/-- A successful `dictLookup` means the key is in the dict's key list. -/
lemma dictLookup_some_mem {β : Type} (k : String) (v : β) :
    ∀ l : List (String × β), dictLookup k l = some v → k ∈ l.map Prod.fst
  | [], h => by cases h
  | (k', v') :: rest, h => by
    rw [dictLookup] at h
    by_cases hk : k' = k
    · subst hk
      exact List.mem_cons_self _ _
    · rw [if_neg hk] at h
      exact List.mem_cons_of_mem _ (dictLookup_some_mem k v rest h)

/-- `ktc_values[k]` returns the stored value. -/
lemma dictGet_eq (tbl : List (String × ℚ)) (k : String) (v : ℚ)
    (h : dictLookup k tbl = some v) : dictGet tbl k = v := by
  rw [dictGet, h]
  rfl

/-- If every possibility scores strictly below the cutoff, nothing survives
the filter of `get_close_matches`. -/
lemma closeScored_nil (word : String) (c : ℚ) :
    ∀ poss : List String, (∀ x ∈ poss, ratioQ x word < c) →
      closeScored word poss c = []
  | [], _ => rfl
  | y :: ys, h => by
    have hy : ¬ c ≤ ratioQ y word := not_le.2 (h y (List.mem_cons_self y ys))
    have ihr := closeScored_nil word c ys
      fun x hx => h x (List.mem_cons_of_mem _ hx)
    simp only [closeScored, List.filterMap_cons, if_neg hy] at ihr ⊢
    exact ihr

/-- `get_close_matches` returns nothing when every possibility scores
strictly below the cutoff. -/
lemma get_close_matches_none (word : String) (poss : List String) (c : ℚ)
    (h : ∀ x ∈ poss, ratioQ x word < c) :
    get_close_matches word poss c = none := by
  unfold get_close_matches
  rw [closeScored_nil word c poss h]

/-- When only `k` reaches the cutoff, every survivor of the filter is the
scored pair for `k`. -/
lemma closeScored_const (word : String) (c : ℚ) (k : String)
    (hk : c ≤ ratioQ k word) :
    ∀ poss : List String, (∀ x ∈ poss, x ≠ k → ratioQ x word < c) →
      ∀ p ∈ closeScored word poss c, p = (ratioQ k word, k)
  | [], _, p, hp => by cases hp
  | y :: ys, h, p, hp => by
    have ihr := closeScored_const word c k hk ys
      fun x hx hxk => h x (List.mem_cons_of_mem _ hx) hxk
    by_cases hyk : y = k
    · subst hyk
      simp only [closeScored, List.filterMap_cons, if_pos hk] at hp
      rcases List.mem_cons.1 hp with hp' | hp'
      · exact hp'
      · exact ihr p hp'
    · have hy : ¬ c ≤ ratioQ y word :=
        not_le.2 (h y (List.mem_cons_self y ys) hyk)
      simp only [closeScored, List.filterMap_cons, if_neg hy] at hp
      exact ihr p hp

/-- A possibility reaching the cutoff survives the filter with its score. -/
lemma closeScored_mem (word : String) (c : ℚ) (k : String)
    (hk : c ≤ ratioQ k word) :
    ∀ poss : List String, k ∈ poss →
      (ratioQ k word, k) ∈ closeScored word poss c
  | [], hmem => by cases hmem
  | y :: ys, hmem => by
    simp only [closeScored, List.filterMap_cons]
    rcases List.mem_cons.1 hmem with rfl | hmem'
    · rw [if_pos hk]
      exact List.mem_cons_self _ _
    · have ihr := closeScored_mem word c k hk ys hmem'
      split
      · simpa only [closeScored] using ihr
      · exact List.mem_cons_of_mem _ (by simpa only [closeScored] using ihr)

/-- When exactly `k` reaches the cutoff (all other possibilities score
strictly below it), `get_close_matches` returns `k`. -/
lemma get_close_matches_unique (word : String) (poss : List String) (c : ℚ)
    (k : String) (hmem : k ∈ poss) (hk : c ≤ ratioQ k word)
    (hothers : ∀ x ∈ poss, x ≠ k → ratioQ x word < c) :
    get_close_matches word poss c = some k := by
  have hconst := closeScored_const word c k hk poss hothers
  have hmem' := closeScored_mem word c k hk poss hmem
  unfold get_close_matches
  cases hcs : closeScored word poss c with
  | nil =>
    rw [hcs] at hmem'
    cases hmem'
  | cons p ps =>
    rw [hcs] at hconst
    have hp := hconst p (List.mem_cons_self _ _)
    have hfold : ∀ (l : List (ℚ × String)) (a : ℚ × String),
        (∀ q ∈ l, q = (ratioQ k word, k)) → a = (ratioQ k word, k) →
        l.foldl (fun best q =>
          if best.1 < q.1 ∨ (best.1 = q.1 ∧ best.2 < q.2) then q else best) a =
          (ratioQ k word, k) := by
      intro l
      induction l with
      | nil =>
        intro a _ ha
        simpa using ha
      | cons q qs ih =>
        intro a hall ha
        rw [List.foldl_cons]
        refine ih _ (fun r hr => hall r (List.mem_cons_of_mem _ hr)) ?_
        rw [ha, hall q (List.mem_cons_self _ _)]
        exact ite_self _
    dsimp only
    rw [hfold ps p (fun q hq => hconst q (List.mem_cons_of_mem _ hq)) hp]

/-- Fuzzy-hit case of the resolver: no exact key, one close match `k`. -/
lemma resolveFrom_fuzzy (ni : String) (s : ResolverState) (k : String)
    (hex : dictLookup ni s.ktc_values = none)
    (hcl : get_close_matches ni (s.ktc_values.map Prod.fst) (1/2) = some k) :
    (resolveFrom ni s).1.1 = (dictGet s.ktc_values k, some k) := by
  unfold resolveFrom
  rw [hex, hcl]

/-- C4: for an input with no manual override and no exact table match, if
exactly one table key scores exactly the 0.5 acceptance cutoff (all others
strictly below), the resolver returns that key's value and that key as
canonical; if every key scores strictly below the cutoff, it returns
`(0, none)` — and since the embedding is total, neither outcome is an
error. -/
theorem claim_C4 (name : String) (tbl db : List (String × ℚ))
    (hov : dictLookup (pyStrip name) manual_ktc_overrides = none)
    (hex : dictLookup (pyStrip name) tbl = none) :
    (∀ k v, dictLookup k tbl = some v →
      ratioQ k (pyStrip name) = 1/2 →
      (∀ x ∈ tbl.map Prod.fst, x ≠ k → ratioQ x (pyStrip name) < 1/2) →
      (get_ktc_value name ⟨tbl, db⟩).1.1 = (v, some k)) ∧
    ((∀ x ∈ tbl.map Prod.fst, ratioQ x (pyStrip name) < 1/2) →
      (get_ktc_value name ⟨tbl, db⟩).1.1 = (0, none)) := by
  have hg : get_ktc_value name ⟨tbl, db⟩ =
      resolveFrom (pyStrip name) ⟨tbl, db⟩ := by
    show resolveFrom ((dictLookup (pyStrip name)
        manual_ktc_overrides).getD (pyStrip name)) ⟨tbl, db⟩ =
      resolveFrom (pyStrip name) ⟨tbl, db⟩
    rw [hov]
    rfl
  constructor
  · intro k v hkv hhalf hothers
    have hclose := get_close_matches_unique (pyStrip name) (tbl.map Prod.fst)
      (1/2) k (dictLookup_some_mem k v tbl hkv) (le_of_eq hhalf.symm) hothers
    rw [hg, resolveFrom_fuzzy (pyStrip name) ⟨tbl, db⟩ k hex hclose,
      dictGet_eq tbl k v hkv]
  · intro hall
    have hcl := get_close_matches_none (pyStrip name) (tbl.map Prod.fst)
      (1/2) hall
    rw [hg]
    exact congrArg Prod.fst (resolveFrom_miss (pyStrip name) ⟨tbl, db⟩ hex hcl)

/-- Witness for C4: "ay" scores exactly 1/2 against the sole key "ax"
(one matched character, combined length 4) and resolves to it; against the
sole key "zz" it scores 0 and resolves to `(0, none)`. -/
theorem claim_C4_witness :
    (get_ktc_value "ay" ⟨[("ax", 7)], []⟩).1.1 = (7, some "ax") ∧
    (get_ktc_value "ay" ⟨[("zz", 3)], []⟩).1.1 = (0, none) :=
  ⟨(claim_C4 "ay" [("ax", 7)] [] (by decide) (by decide)).1 "ax" 7 (by decide)
      (by decide) (by decide),
    (claim_C4 "ay" [("zz", 3)] [] (by decide) (by decide)).2 (by decide)⟩

/-! ## Claims about the trade poll cycle -/

/-- During a cycle `known_trade_ids` only grows: an id known before the cycle
is still known afterwards. -/
lemma runCycleAux_known_mono (ctx : CycleCtx) :
    ∀ (txns : List Txn) (known : List String) (events : List TradeEvent)
      (tid : String), tid ∈ known →
      tid ∈ (runCycleAux ctx txns known events).known := by
  intro txns
  induction txns with
  | nil =>
    intro known events tid h
    exact h
  | cons txn rest ih =>
    intro known events tid h
    simp only [runCycleAux]
    repeat' split
    all_goals first
      | exact ih _ _ _ h
      | exact h
      | exact ih _ _ _ (List.mem_append_left _ h)

/-- Transfer a property to every event of a cycle: it must hold of the
already-accumulated events and of any event whose transaction id is that of a
qualifying (trade, complete, not yet known) transaction of the feed. -/
lemma runCycleAux_events_prop (ctx : CycleCtx) (P : TradeEvent → Prop) :
    ∀ (txns : List Txn) (known : List String) (events : List TradeEvent),
      (∀ ev ∈ events, P ev) →
      (∀ txn ∈ txns, txn.ttype = "trade" → txn.status = "complete" →
        txn.transaction_id ∉ known →
        ∀ ev : TradeEvent, ev.transaction_id = txn.transaction_id → P ev) →
      ∀ ev ∈ (runCycleAux ctx txns known events).events, P ev := by
  intro txns
  induction txns with
  | nil =>
    intro known events hev _ ev h
    exact hev ev h
  | cons txn rest ih =>
    intro known events hev htxn
    have htxn' : ∀ t ∈ rest, t.ttype = "trade" → t.status = "complete" →
        t.transaction_id ∉ known →
        ∀ ev : TradeEvent, ev.transaction_id = t.transaction_id → P ev :=
      fun t ht => htxn t (List.mem_cons_of_mem _ ht)
    simp only [runCycleAux]
    by_cases h1 : txn.ttype ≠ "trade" ∨ txn.status ≠ "complete"
    · rw [if_pos h1]
      exact ih _ _ hev htxn'
    rw [if_neg h1]
    push_neg at h1
    by_cases h2 : txn.transaction_id ∈ known
    · rw [if_pos h2]
      exact ih _ _ hev htxn'
    rw [if_neg h2]
    cases hadds : txn.adds with
    | malformed =>
      intro ev h
      exact hev ev h
    | dict entries =>
      cases htake : txn.roster_ids.take 2 with
      | nil =>
        exact ih _ _ hev htxn'
      | cons r0 rtail =>
        cases rtail with
        | nil =>
          exact ih _ _ hev htxn'
        | cons r1 rrest =>
          dsimp only
          by_cases hch : ctx.channelOk = true
          · rw [if_pos hch]
            by_cases hsend : ctx.sendOk txn.transaction_id = true
            · rw [if_pos hsend]
              refine ih _ _ ?_ ?_
              · intro e he
                rcases List.mem_append.1 he with he' | he'
                · exact hev e he'
                · have heq : e = ⟨txn.transaction_id, _, _, _, _, _, _, _⟩ :=
                    List.mem_singleton.1 he'
                  exact htxn txn (List.mem_cons_self _ _) h1.1 h1.2 h2 e
                    (by rw [heq])
              · intro t ht htr hc hnk
                exact htxn' t ht htr hc
                  fun hmem => hnk (List.mem_append_left _ hmem)
            · rw [if_neg hsend]
              exact ih _ _ hev htxn'
          · rw [if_neg hch]
            intro ev h
            exact hev ev h

/-- A feed in which every transaction fails the type/status filter or is
already known leaves the cycle with no events, the same known set, and a
normal finish. -/
lemma runCycleAux_all_filtered (ctx : CycleCtx) :
    ∀ (txns : List Txn) (known : List String) (events : List TradeEvent),
      (∀ txn ∈ txns, txn.ttype ≠ "trade" ∨ txn.status ≠ "complete" ∨
        txn.transaction_id ∈ known) →
      runCycleAux ctx txns known events = ⟨events, known, CycleStop.finished⟩ := by
  intro txns
  induction txns with
  | nil =>
    intro known events _
    rfl
  | cons txn rest ih =>
    intro known events hall
    have hhead := hall txn (List.mem_cons_self _ _)
    have hrest : ∀ t ∈ rest, t.ttype ≠ "trade" ∨ t.status ≠ "complete" ∨
        t.transaction_id ∈ known := fun t ht => hall t (List.mem_cons_of_mem _ ht)
    simp only [runCycleAux]
    by_cases h1 : txn.ttype ≠ "trade" ∨ txn.status ≠ "complete"
    · rw [if_pos h1]
      exact ih _ _ hrest
    · rw [if_neg h1]
      push_neg at h1
      have h2 : txn.transaction_id ∈ known := by
        rcases hhead with h | h | h
        · exact absurd h1.1 h
        · exact absurd h1.2 h
        · exact h
      rw [if_pos h2]
      exact ih _ _ hrest

/-- If the channel is present and no transaction in the feed has a malformed
`adds` object, the cycle consumes the whole feed and finishes normally —
regardless of which sends fail. -/
lemma runCycleAux_no_exn (ctx : CycleCtx) :
    ∀ (txns : List Txn) (known : List String) (events : List TradeEvent),
      ctx.channelOk = true →
      (∀ txn ∈ txns, txn.adds ≠ AddsField.malformed) →
      (runCycleAux ctx txns known events).stop = CycleStop.finished := by
  intro txns
  induction txns with
  | nil =>
    intro known events _ _
    rfl
  | cons txn rest ih =>
    intro known events hch hwf
    have hwf' : ∀ t ∈ rest, t.adds ≠ AddsField.malformed :=
      fun t ht => hwf t (List.mem_cons_of_mem _ ht)
    simp only [runCycleAux]
    by_cases h1 : txn.ttype ≠ "trade" ∨ txn.status ≠ "complete"
    · rw [if_pos h1]
      exact ih _ _ hch hwf'
    rw [if_neg h1]
    by_cases h2 : txn.transaction_id ∈ known
    · rw [if_pos h2]
      exact ih _ _ hch hwf'
    rw [if_neg h2]
    cases hadds : txn.adds with
    | malformed =>
      exact absurd hadds (hwf txn (List.mem_cons_self _ _))
    | dict entries =>
      cases htake : txn.roster_ids.take 2 with
      | nil =>
        exact ih _ _ hch hwf'
      | cons r0 rtail =>
        cases rtail with
        | nil =>
          exact ih _ _ hch hwf'
        | cons r1 rrest =>
          dsimp only
          rw [if_pos hch]
          by_cases hsend : ctx.sendOk txn.transaction_id = true
          · rw [if_pos hsend]
            exact ih _ _ hch hwf'
          · rw [if_neg hsend]
            exact ih _ _ hch hwf'

/-- C1: an id already in `known_trade_ids` when the cycle starts is never
announced again (no emitted event carries it) and stays in the set; every
emitted event comes from a feed transaction with type "trade" and status
"complete"; and a feed whose transactions all fail the type/status test or
are already known produces no events and no error — the cycle finishes
normally with the known set unchanged. -/
theorem claim_C1 (ctx : CycleCtx) (known : List String) (txns : List Txn) :
    (∀ tid, tid ∈ known →
      tid ∈ (runCycle ctx txns known).known ∧
      ∀ ev ∈ (runCycle ctx txns known).events, ev.transaction_id ≠ tid) ∧
    (∀ ev ∈ (runCycle ctx txns known).events,
      ∃ txn, txn ∈ txns ∧ ev.transaction_id = txn.transaction_id ∧
        txn.ttype = "trade" ∧ txn.status = "complete") ∧
    ((∀ txn ∈ txns, txn.ttype ≠ "trade" ∨ txn.status ≠ "complete" ∨
        txn.transaction_id ∈ known) →
      runCycle ctx txns known = ⟨[], known, CycleStop.finished⟩) := by
  refine ⟨fun tid htid => ⟨runCycleAux_known_mono ctx txns known [] tid htid, ?_⟩,
    ?_, fun hall => runCycleAux_all_filtered ctx txns known [] hall⟩
  · refine runCycleAux_events_prop ctx _ txns known []
      (fun ev h => absurd h (List.not_mem_nil ev)) ?_
    intro txn _ _ _ hnk ev heq
    rw [heq]
    exact fun hc => hnk (hc ▸ htid)
  · refine runCycleAux_events_prop ctx _ txns known []
      (fun ev h => absurd h (List.not_mem_nil ev)) ?_
    intro txn ht htr hc _ ev heq
    exact ⟨txn, ht, heq, htr, hc⟩

/-- Witness for C1: a feed holding a single complete trade whose id "t1" is
already known changes nothing — no event, same known set, normal finish. -/
theorem claim_C1_witness :
    "t1" ∈ (runCycle ⟨[], [], [], true, fun _ => true⟩
        [⟨"t1", "trade", "complete", AddsField.dict [], [1, 2]⟩] ["t1"]).known ∧
    runCycle ⟨[], [], [], true, fun _ => true⟩
        [⟨"t1", "trade", "complete", AddsField.dict [], [1, 2]⟩] ["t1"] =
      ⟨[], ["t1"], CycleStop.finished⟩ :=
  ⟨((claim_C1 ⟨[], [], [], true, fun _ => true⟩ ["t1"]
      [⟨"t1", "trade", "complete", AddsField.dict [], [1, 2]⟩]).1 "t1"
      (by decide)).1,
    (claim_C1 ⟨[], [], [], true, fun _ => true⟩ ["t1"]
      [⟨"t1", "trade", "complete", AddsField.dict [], [1, 2]⟩]).2.2 (by decide)⟩

/-- C7 as stated is false: an exception raised while shaping one
transaction's data (here a malformed `adds` object on "t1") aborts the whole
loop, so the following well-formed complete trade "t2" is not processed —
whereas alone, "t2" is announced. -/
theorem claim_C7_counterexample :
    (runCycle ⟨[], [], [], true, fun _ => true⟩
      [⟨"t1", "trade", "complete", AddsField.malformed, [1, 2]⟩,
       ⟨"t2", "trade", "complete", AddsField.dict [("p1", 1), ("p2", 2)],
         [1, 2]⟩] []) =
      ⟨[], [], CycleStop.exn⟩ ∧
    (runCycle ⟨[], [], [], true, fun _ => true⟩
      [⟨"t2", "trade", "complete", AddsField.dict [("p1", 1), ("p2", 2)],
        [1, 2]⟩] []).events.length = 1 := by
  constructor <;> decide

/-- C7 amended: only the notification-send step is guarded per transaction,
so when the channel is present and every transaction's `adds` object is
well-formed, the cycle processes the entire feed to completion no matter
which sends fail (a failed send merely skips that announcement and its dedup
insertion); an exception while shaping a transaction's data (malformed
`adds`) is not caught per item and aborts the rest of the cycle. -/
theorem claim_C7 (ctx : CycleCtx) (txns : List Txn) (known : List String)
    (hch : ctx.channelOk = true)
    (hwf : ∀ txn ∈ txns, txn.adds ≠ AddsField.malformed) :
    (runCycle ctx txns known).stop = CycleStop.finished :=
  runCycleAux_no_exn ctx txns known [] hch hwf

/-- Witness for C7: with a send that fails exactly on "t1", a feed of two
well-formed complete trades still runs to completion, and the second trade
is announced and recorded even though the first one's send failed. -/
theorem claim_C7_witness :
    (runCycle ⟨[], [], [], true, fun tid => !(tid == "t1")⟩
      [⟨"t1", "trade", "complete", AddsField.dict [("p1", 1), ("p2", 2)],
        [1, 2]⟩,
       ⟨"t2", "trade", "complete", AddsField.dict [("p3", 1), ("p4", 2)],
        [1, 2]⟩] []).stop = CycleStop.finished ∧
    (runCycle ⟨[], [], [], true, fun tid => !(tid == "t1")⟩
      [⟨"t1", "trade", "complete", AddsField.dict [("p1", 1), ("p2", 2)],
        [1, 2]⟩,
       ⟨"t2", "trade", "complete", AddsField.dict [("p3", 1), ("p4", 2)],
        [1, 2]⟩] []).known = ["t2"] :=
  ⟨claim_C7 ⟨[], [], [], true, fun tid => !(tid == "t1")⟩
      [⟨"t1", "trade", "complete", AddsField.dict [("p1", 1), ("p2", 2)],
        [1, 2]⟩,
       ⟨"t2", "trade", "complete", AddsField.dict [("p3", 1), ("p4", 2)],
        [1, 2]⟩] [] rfl (by decide),
    by decide⟩

end TradeRaven
